import Mathlib

/-!
Shallow embedding of the mosaic tree core of `react-mosaic-ui`:
the tree data model (`MosaicNode`), tree primitives
(`getLeaves`, `getNodeAtPath`, `createBalancedTreeFromLeaves`, `countNodes`),
the update algebra (`updateTree`, `applyUpdateAtPath`, `createRemoveUpdate`),
the drag-relocation algorithm (`createDragToUpdates`) and the bounding-box
geometry (`split`).  Numbers are modelled as rationals, JS exceptions as
`Except MosaicErr`, and `null` as `Option`.
-/

inductive MosaicDirection : Type where
  | row
  | column
deriving DecidableEq, Repr

inductive MosaicBranch : Type where
  | first
  | second
deriving DecidableEq, Repr

abbrev MosaicPath : Type := List MosaicBranch

/-- `MosaicNode<T>` from `shared/types`: a leaf key or a binary split with a
direction, two ordered children and an optional split percentage. -/
inductive MosaicNode (T : Type) : Type where
  | leaf (key : T)
  | split (direction : MosaicDirection) (first second : MosaicNode T)
      (splitPercentage : Option ℚ)
deriving DecidableEq, Repr

/-- `parent[branch]` field access on a split given its two children. -/
def branchChild {T : Type} (b : MosaicBranch) (f s : MosaicNode T) : MosaicNode T :=
  match b with
  | .first => f
  | .second => s

/-- `getOtherBranch` from `mosaic-utilities`. -/
def getOtherBranch (branch : MosaicBranch) : MosaicBranch :=
  match branch with
  | .first => .second
  | .second => .first

/-- `getOtherDirection` from `mosaic-utilities`. -/
def getOtherDirection (direction : MosaicDirection) : MosaicDirection :=
  match direction with
  | .row => .column
  | .column => .row

/-- `isParent` from `mosaic-utilities` (structural split test, null allowed). -/
def isParent {T : Type} (node : Option (MosaicNode T)) : Bool :=
  match node with
  | some (.split _ _ _ _) => true
  | _ => false

/-- Leaves of a non-null node, pre-order (recursive core of `getLeaves`). -/
def getLeavesN {T : Type} : MosaicNode T → List T
  | .leaf k => [k]
  | .split _ f s _ => getLeavesN f ++ getLeavesN s

/-- `getLeaves` from `mosaic-utilities`: `[]` for `null`. -/
def getLeaves {T : Type} (node : Option (MosaicNode T)) : List T :=
  match node with
  | none => []
  | some n => getLeavesN n

/-- `getNodeAtPath` from `mosaic-utilities`: walks the path, `null` whenever
an intermediate node is a leaf while the path is not yet exhausted. -/
def getNodeAtPath {T : Type} : MosaicNode T → MosaicPath → Option (MosaicNode T)
  | node, [] => some node
  | .leaf _, _ :: _ => none
  | .split _ f s _, b :: rest => getNodeAtPath (branchChild b f s) rest

/-- Error taxonomy: the three distinct `throw new Error(...)` sites of
`mosaic-updates.ts` / `mosaic-utilities.ts`. -/
inductive MosaicErr : Type where
  | rootRemoval
  | pathNotFound
  | parentNotParent
deriving DecidableEq, Repr

/-- `getAndAssertNodeAtPathExists` from `mosaic-utilities`. -/
def getAndAssertNodeAtPathExists {T : Type} (node : MosaicNode T) (path : MosaicPath) :
    Except MosaicErr (MosaicNode T) :=
  match getNodeAtPath node path with
  | none => .error .pathNotFound
  | some r => .ok r

/-- Recursive core of `countNodes`. -/
def countNodesN {T : Type} : MosaicNode T → ℕ
  | .leaf _ => 1
  | .split _ f s _ => 1 + countNodesN f + countNodesN s

/-- `countNodes` from `mosaic-utilities`: `0` for `null`. -/
def countNodes {T : Type} (node : Option (MosaicNode T)) : ℕ :=
  match node with
  | none => 0
  | some n => countNodesN n

/-- `createBalancedTreeFromLeaves` from `mosaic-utilities`: bisect at
`floor(n/2)`, alternate direction, join 50/50. -/
def createBalancedTreeFromLeaves {T : Type} (leaves : List T)
    (startDirection : MosaicDirection) : Option (MosaicNode T) :=
  if _h0 : leaves.length = 0 then none
  else if _h1 : leaves.length = 1 then
    match leaves with
    | [] => none
    | l :: _ => some (.leaf l)
  else
    let mid := leaves.length / 2
    let first := createBalancedTreeFromLeaves (leaves.take mid) (getOtherDirection startDirection)
    let second := createBalancedTreeFromLeaves (leaves.drop mid) (getOtherDirection startDirection)
    match first, second with
    | none, s => s
    | some f, none => some f
    | some f, some s => some (.split startDirection f s (some 50))
termination_by leaves.length
decreasing_by
  · simp only [List.length_take]
    omega
  · simp only [List.length_drop]
    omega

/-- `MosaicUpdateSpec<T>`: either a full `$set` replacement or a partial
patch touching `splitPercentage`, `direction`, `first`, `second`. -/
inductive MosaicUpdateSpec (T : Type) : Type where
  | set (node : MosaicNode T)
  | patch (splitPercentage : Option ℚ) (direction : Option MosaicDirection)
      (first : Option (MosaicUpdateSpec T)) (second : Option (MosaicUpdateSpec T))

/-- `MosaicUpdate<T>`: a path together with a spec. -/
structure MosaicUpdate (T : Type) : Type where
  path : MosaicPath
  spec : MosaicUpdateSpec T

/-- `applyUpdateAtPath` from `mosaic-updates.ts`, as a pure copy-on-write
rebuild: the immer draft mutation becomes reconstruction of the split nodes
on the path.  A `$set` at an empty path is handled at the parent level and
is a no-op here; a path that runs into a leaf is a silent no-op. -/
def applyUpdateAtPath {T : Type} :
    MosaicNode T → MosaicPath → MosaicUpdateSpec T → MosaicNode T
  | node, [], .set _ => node
  | .leaf k, [], .patch _ _ _ _ => .leaf k
  | .split dir f s pct, [], .patch spPct spDir spFirst spSecond =>
      .split
        (match spDir with | some d => d | none => dir)
        (match spFirst with | some fs => applyUpdateAtPath f [] fs | none => f)
        (match spSecond with | some ss => applyUpdateAtPath s [] ss | none => s)
        (match spPct with | some v => some v | none => pct)
  | .leaf k, _ :: _, _ => .leaf k
  | .split dir f s pct, b :: rest, spec =>
      match rest, spec with
      | [], .set n =>
          (match b with
           | .first => .split dir n s pct
           | .second => .split dir f n pct)
      | _, _ =>
          (match b with
           | .first => .split dir (applyUpdateAtPath f rest spec) s pct
           | .second => .split dir f (applyUpdateAtPath s rest spec) pct)

/-- One iteration of the `for (const update of updates)` loop of `updateTree`:
a root-level `$set` replaces the current tree, anything else goes through
`applyUpdateAtPath`. -/
def applyOneUpdate {T : Type} (current : MosaicNode T) (u : MosaicUpdate T) : MosaicNode T :=
  match u with
  | ⟨[], .set n⟩ => n
  | ⟨p, spec⟩ => applyUpdateAtPath current p spec

/-- `updateTree` from `mosaic-updates.ts`: `null` stays `null`, otherwise the
updates are folded over the tree left to right. -/
def updateTree {T : Type} (root : Option (MosaicNode T)) (updates : List (MosaicUpdate T)) :
    Option (MosaicNode T) :=
  match root with
  | none => none
  | some r => some (updates.foldl applyOneUpdate r)

/-- `createRemoveUpdate` from `mosaic-updates.ts`: rejects a null root or an
empty path, resolves the parent path, requires the parent to be a split, and
replaces the parent with the sibling subtree. -/
def createRemoveUpdate {T : Type} (root : Option (MosaicNode T)) (path : MosaicPath) :
    Except MosaicErr (MosaicUpdate T) :=
  match root, path.getLast? with
  | none, _ => .error .rootRemoval
  | some _, none => .error .rootRemoval
  | some r, some branch =>
    let parentPath := path.dropLast
    match getAndAssertNodeAtPathExists r parentPath with
    | .error e => .error e
    | .ok (.leaf _) => .error .parentNotParent
    | .ok (.split _ f s _) =>
        .ok ⟨parentPath, .set (branchChild (getOtherBranch branch) f s)⟩

inductive MosaicDropTargetPosition : Type where
  | top
  | bottom
  | left
  | right
deriving DecidableEq, Repr

/-- The new 50/50 joint split node built by `createDragToUpdates`:
direction `row` for LEFT/RIGHT and `column` for TOP/BOTTOM, the source in the
`first` slot for LEFT/TOP and in the `second` slot otherwise. -/
def dragSplitNode {T : Type} (position : MosaicDropTargetPosition)
    (sourceNode destinationNode : MosaicNode T) : MosaicNode T :=
  .split
    (if position = .left ∨ position = .right then .row else .column)
    (if position = .left ∨ position = .top then sourceNode else destinationNode)
    (if position = .left ∨ position = .top then destinationNode else sourceNode)
    (some 50)

/-- `createDragToUpdates` from `mosaic-updates.ts`.  The JS array-content
path comparisons (`JSON.stringify`, `every` over indices) are structural list
equality and the prefix relation; exceptions from `createRemoveUpdate`
propagate through `Except`. -/
def createDragToUpdates {T : Type} (root : MosaicNode T)
    (sourcePath destinationPath : MosaicPath) (position : MosaicDropTargetPosition) :
    Except MosaicErr (List (MosaicUpdate T)) :=
  match getNodeAtPath root sourcePath with
  | none => .ok []
  | some sourceNode =>
    match getNodeAtPath root destinationPath with
    | none => .ok []
    | some destinationNode =>
      if sourcePath = destinationPath then .ok []
      else
        let newSplitNode := dragSplitNode position sourceNode destinationNode
        if destinationPath.length < sourcePath.length ∧ destinationPath <+: sourcePath then
          -- destination contains source: remove the source inside the
          -- destination subtree, then one combined $set at the destination
          match createRemoveUpdate (some destinationNode)
              (sourcePath.drop destinationPath.length) with
          | .error e => .error e
          | .ok removeUpd =>
            match updateTree (some destinationNode) [removeUpd] with
            | none => .ok []
            | some updatedDestination =>
                .ok [⟨destinationPath, .set (dragSplitNode position sourceNode updatedDestination)⟩]
        else
          let sourceParentPath := sourcePath.dropLast
          let destParentPath := destinationPath.dropLast
          let adjustedDestinationPath :=
            if sourceParentPath = destParentPath then
              -- siblings: after the removal the destination sits at the parent
              sourceParentPath
            else if 0 < sourceParentPath.length ∧
                sourceParentPath.length < destinationPath.length ∧
                sourceParentPath <+: destinationPath ∧
                sourcePath[sourceParentPath.length]? = destinationPath[sourceParentPath.length]? then
              sourceParentPath ++ destinationPath.drop (sourceParentPath.length + 1)
            else destinationPath
          if 0 < sourcePath.length then
            match createRemoveUpdate (some root) sourcePath with
            | .error e => .error e
            | .ok removeUpd => .ok [removeUpd, ⟨adjustedDestinationPath, .set newSplitNode⟩]
          else .ok [⟨adjustedDestinationPath, .set newSplitNode⟩]

/-- `BoundingBox` from `shared/types`: four rational coordinates. -/
structure BoundingBox : Type where
  top : ℚ
  right : ℚ
  bottom : ℚ
  left : ℚ
deriving DecidableEq, Repr

/-- `createBoundingBox` from `bounding-box.ts`. -/
def createBoundingBox (top right bottom left : ℚ) : BoundingBox :=
  ⟨top, right, bottom, left⟩

/-- `getWidth` from `bounding-box.ts`. -/
def getWidth (box : BoundingBox) : ℚ := box.right - box.left

/-- `getHeight` from `bounding-box.ts`. -/
def getHeight (box : BoundingBox) : ℚ := box.bottom - box.top

/-- The `Math.max(0, Math.min(100, percentage))` clamp used by `split`. -/
def clampPercent (percentage : ℚ) : ℚ := max 0 (min 100 percentage)

/-- `split` from `bounding-box.ts`: clamp the percentage, then cut along the
horizontal axis for `row` and along the vertical axis for `column`. -/
def split (box : BoundingBox) (percentage : ℚ) (direction : MosaicDirection) :
    BoundingBox × BoundingBox :=
  let percent := clampPercent percentage
  match direction with
  | .row =>
    let splitPoint := box.left + getWidth box * percent / 100
    (createBoundingBox box.top splitPoint box.bottom box.left,
     createBoundingBox box.top box.right box.bottom splitPoint)
  | .column =>
    let splitPoint := box.top + getHeight box * percent / 100
    (createBoundingBox box.top box.right splitPoint box.left,
     createBoundingBox splitPoint box.right box.bottom box.left)

/-- `containsPoint` from `bounding-box.ts`: inclusive bounds test. -/
def containsPoint (box : BoundingBox) (x y : ℚ) : Prop :=
  box.left ≤ x ∧ x ≤ box.right ∧ box.top ≤ y ∧ y ≤ box.bottom

/-- The closed rectangular region a bounding box denotes. -/
def boxPoints (box : BoundingBox) : Set (ℚ × ℚ) :=
  {p | box.left ≤ p.1 ∧ p.1 ≤ box.right ∧ box.top ≤ p.2 ∧ p.2 ≤ box.bottom}

/-- The open interior of the region a bounding box denotes. -/
def boxInterior (box : BoundingBox) : Set (ℚ × ℚ) :=
  {p | box.left < p.1 ∧ p.1 < box.right ∧ box.top < p.2 ∧ p.2 < box.bottom}

/-- Scenario B of the repo's own test-suite:
`{row, first:'a', second:{column, first:'b', second:'c', split:50}, split:40}`. -/
def scenarioB : MosaicNode String :=
  .split .row (.leaf "a") (.split .column (.leaf "b") (.leaf "c") (some 50)) (some 40)

/-- The update batch `createDragToUpdates` actually produces for scenario B. -/
def scenarioBBatch : List (MosaicUpdate String) :=
  [⟨[], .set (.split .column (.leaf "b") (.leaf "c") (some 50))⟩,
   ⟨[.second, .first], .set (.split .row (.leaf "a") (.leaf "b") (some 50))⟩]

/-- A concrete tree with a non-empty source parent path for the rebasing
case: `{row, 'x', {column, {row,'b','c'}, 'd'}}`. -/
def rebaseSample : MosaicNode String :=
  .split .row (.leaf "x")
    (.split .column (.split .row (.leaf "b") (.leaf "c") (some 50)) (.leaf "d") (some 50))
    (some 50)

/-! ## Helper lemmas -/

theorem applyUpdateAtPath_noop {T : Type} :
    ∀ (path : MosaicPath) (t : MosaicNode T) (spec : MosaicUpdateSpec T),
      getNodeAtPath t path = none → applyUpdateAtPath t path spec = t := by
  intro path
  induction path with
  | nil =>
    intro t spec h
    simp [getNodeAtPath] at h
  | cons b rest ih =>
    intro t spec h
    cases t with
    | leaf k => cases spec <;> rfl
    | split d f s pct =>
      simp only [getNodeAtPath] at h
      cases rest with
      | nil => simp [getNodeAtPath] at h
      | cons r rs =>
        have hrec := ih (branchChild b f s) spec h
        cases spec <;> cases b <;>
          simp_all [applyUpdateAtPath, branchChild]

theorem applyOneUpdate_nonempty {T : Type} (t : MosaicNode T) (b : MosaicBranch)
    (rest : MosaicPath) (spec : MosaicUpdateSpec T) :
    applyOneUpdate t ⟨b :: rest, spec⟩ = applyUpdateAtPath t (b :: rest) spec := by
  cases spec <;> rfl

theorem applyOneUpdate_set_cons {T : Type} (d : MosaicDirection) (f s : MosaicNode T)
    (pct : Option ℚ) (b : MosaicBranch) (rest : MosaicPath) (n : MosaicNode T) :
    applyOneUpdate (.split d f s pct) ⟨b :: rest, .set n⟩ =
      (match b with
       | .first => .split d (applyOneUpdate f ⟨rest, .set n⟩) s pct
       | .second => .split d f (applyOneUpdate s ⟨rest, .set n⟩) pct) := by
  cases b <;> cases rest <;> rfl

/-- Replacing the node at a resolvable path `P` by `new` splices the leaves of
`new` into the leaf sequence in place of the old subtree's leaves, and the new
node is then found at `P`. -/
theorem setAtPath_spec {T : Type} :
    ∀ (P : MosaicPath) (t old : MosaicNode T), getNodeAtPath t P = some old →
      ∃ pre suf : List T, getLeavesN t = pre ++ getLeavesN old ++ suf ∧
        ∀ new : MosaicNode T,
          getLeavesN (applyOneUpdate t ⟨P, .set new⟩) = pre ++ getLeavesN new ++ suf ∧
          getNodeAtPath (applyOneUpdate t ⟨P, .set new⟩) P = some new := by
  intro P
  induction P with
  | nil =>
    intro t old h
    simp only [getNodeAtPath, Option.some.injEq] at h
    subst h
    exact ⟨[], [], by simp, fun new => ⟨by simp [applyOneUpdate], by simp [applyOneUpdate, getNodeAtPath]⟩⟩
  | cons b rest ih =>
    intro t old h
    cases t with
    | leaf k => simp [getNodeAtPath] at h
    | split d f s pct =>
      simp only [getNodeAtPath] at h
      cases b with
      | first =>
        simp only [branchChild] at h
        obtain ⟨pre, suf, hsplit, hnew⟩ := ih f old h
        refine ⟨pre, suf ++ getLeavesN s, ?_, ?_⟩
        · simp [getLeavesN, hsplit]
        · intro new
          rw [applyOneUpdate_set_cons]
          exact ⟨by simp [getLeavesN, (hnew new).1],
                 by simp [getNodeAtPath, branchChild, (hnew new).2]⟩
      | second =>
        simp only [branchChild] at h
        obtain ⟨pre, suf, hsplit, hnew⟩ := ih s old h
        refine ⟨getLeavesN f ++ pre, suf, ?_, ?_⟩
        · simp [getLeavesN, hsplit]
        · intro new
          rw [applyOneUpdate_set_cons]
          exact ⟨by simp [getLeavesN, (hnew new).1],
                 by simp [getNodeAtPath, branchChild, (hnew new).2]⟩

theorem countNodesN_succ {T : Type} : ∀ t : MosaicNode T,
    countNodesN t + 1 = 2 * (getLeavesN t).length := by
  intro t
  induction t with
  | leaf k => rfl
  | split d f s pct ihf ihs =>
    simp only [countNodesN, getLeavesN, List.length_append]
    omega

theorem balanced_leaves_aux {T : Type} :
    ∀ (n : ℕ) (L : List T), L.length ≤ n → ∀ d : MosaicDirection,
      getLeaves (createBalancedTreeFromLeaves L d) = L := by
  intro n
  induction n with
  | zero =>
    intro L h d
    have hL : L = [] := List.length_eq_zero.mp (Nat.le_zero.mp h)
    subst hL
    unfold createBalancedTreeFromLeaves
    simp [getLeaves]
  | succ n ih =>
    intro L h d
    by_cases h0 : L.length = 0
    · have hL : L = [] := List.length_eq_zero.mp h0
      subst hL
      unfold createBalancedTreeFromLeaves
      simp [getLeaves]
    · by_cases h1 : L.length = 1
      · obtain ⟨a, rfl⟩ := List.length_eq_one.mp h1
        unfold createBalancedTreeFromLeaves
        simp [getLeaves, getLeavesN]
      · have h2 : 2 ≤ L.length := by omega
        have hm1 : 1 ≤ L.length / 2 := by omega
        have hmlt : L.length / 2 < L.length := by omega
        have htake : (L.take (L.length / 2)).length = L.length / 2 := by
          simp [List.length_take]
          omega
        have ihf := ih (L.take (L.length / 2)) (by simp [List.length_take]; omega)
          (getOtherDirection d)
        have ihs := ih (L.drop (L.length / 2)) (by simp [List.length_drop]; omega)
          (getOtherDirection d)
        cases hf : createBalancedTreeFromLeaves (L.take (L.length / 2)) (getOtherDirection d) with
        | none =>
          exfalso
          rw [hf] at ihf
          have := congrArg List.length ihf
          simp [getLeaves, htake] at this
          omega
        | some f =>
          cases hs : createBalancedTreeFromLeaves (L.drop (L.length / 2)) (getOtherDirection d) with
          | none =>
            exfalso
            rw [hs] at ihs
            have := congrArg List.length ihs
            simp [getLeaves, List.length_drop] at this
            omega
          | some s =>
            rw [hf] at ihf
            rw [hs] at ihs
            unfold createBalancedTreeFromLeaves
            rw [dif_neg h0, dif_neg h1]
            simp only []
            rw [hf, hs]
            simp only [getLeaves, getLeavesN] at ihf ihs ⊢
            rw [ihf, ihs, List.take_append_drop]

/-! ## Claim theorems -/

/-- C4 counterexample: on the empty (null) tree, a root-level `$set` does NOT
replace the tree — `updateTree` returns `null` immediately, so the claim's
"including the empty tree null" clause is false. -/
theorem updateTree_null_root_set_cex :
    updateTree (none : Option (MosaicNode String)) [⟨[], .set (.leaf "a")⟩] = none ∧
    (none : Option (MosaicNode String)) ≠ some (.leaf "a") :=
  ⟨rfl, by simp⟩

/-- C4 (amended): a root-level `$set` replaces the whole tree directly for
every non-null tree; for the null tree `updateTree` returns null regardless
of the update batch. -/
theorem updateTree_root_set (T : Type) :
    (∀ t n : MosaicNode T, updateTree (some t) [⟨[], .set n⟩] = some n) ∧
    (∀ updates : List (MosaicUpdate T), updateTree (none : Option (MosaicNode T)) updates = none) :=
  ⟨fun _ _ => rfl, fun _ => rfl⟩

/-- C5: an update whose path runs into a leaf before being exhausted is a
silent no-op — the single update leaves the tree unchanged and the remaining
updates of the batch are still applied.  (`updateTree` is total over every
tree and batch by construction: it is a Lean function.) -/
theorem updateTree_leaf_path_noop (T : Type) (t : MosaicNode T) (u : MosaicUpdate T)
    (us : List (MosaicUpdate T)) (h : getNodeAtPath t u.path = none) :
    applyOneUpdate t u = t ∧ updateTree (some t) (u :: us) = updateTree (some t) us := by
  have h1 : applyOneUpdate t u = t := by
    obtain ⟨p, spec⟩ := u
    cases p with
    | nil => simp [getNodeAtPath] at h
    | cons b rest =>
      rw [applyOneUpdate_nonempty, applyUpdateAtPath_noop _ _ _ h]
  exact ⟨h1, by simp [updateTree, List.foldl, h1]⟩

/-- C5 witness: a concrete tree and update whose path runs through the leaf
`"a"`; the update is dropped while the following root `$set` still applies. -/
theorem updateTree_leaf_path_noop_witness :
    getNodeAtPath (MosaicNode.split .row (.leaf "a") (.leaf "b") (some 50))
        (⟨[MosaicBranch.first, .first], .set (.leaf "c")⟩ : MosaicUpdate String).path = none ∧
    (applyOneUpdate (MosaicNode.split .row (.leaf "a") (.leaf "b") (some 50))
        ⟨[MosaicBranch.first, .first], .set (.leaf "c")⟩ =
      MosaicNode.split .row (.leaf "a") (.leaf "b") (some 50) ∧
     updateTree (some (MosaicNode.split .row (.leaf "a") (.leaf "b") (some 50)))
        [⟨[MosaicBranch.first, .first], .set (.leaf "c")⟩, ⟨[], .set (.leaf "d")⟩] =
      updateTree (some (MosaicNode.split .row (.leaf "a") (.leaf "b") (some 50)))
        [⟨[], .set (.leaf "d")⟩]) :=
  ⟨rfl, updateTree_leaf_path_noop String (MosaicNode.split .row (.leaf "a") (.leaf "b") (some 50))
    ⟨[MosaicBranch.first, .first], .set (.leaf "c")⟩ [⟨[], .set (.leaf "d")⟩] rfl⟩

/-- C10: a non-null mosaic tree has exactly one fewer split node than leaves,
so `countNodes t = 2·(number of leaves) − 1`; for the null tree both counts
are `0`. -/
theorem countNodes_two_mul_leaves (T : Type) :
    (∀ t : MosaicNode T, countNodes (some t) = 2 * (getLeaves (some t)).length - 1) ∧
    countNodes (none : Option (MosaicNode T)) = 0 ∧
    (getLeaves (none : Option (MosaicNode T))).length = 0 := by
  refine ⟨fun t => ?_, rfl, rfl⟩
  have := countNodesN_succ t
  simp only [countNodes, getLeaves]
  omega

/-- C7: the balanced-tree builder and leaf enumeration are a round trip —
`getLeaves (createBalancedTreeFromLeaves L d) = L`, element for element, for
every list (length 0 and 1 included) and every start direction. -/
theorem getLeaves_createBalancedTreeFromLeaves (T : Type) (L : List T) (d : MosaicDirection) :
    getLeaves (createBalancedTreeFromLeaves L d) = L :=
  balanced_leaves_aux L.length L le_rfl d

/-- C9: `createDragToUpdates` returns the empty batch whenever the source
path or the destination path does not resolve, or on a self-drop, and the
empty batch leaves the tree unchanged under `updateTree`. -/
theorem createDragToUpdates_noop (T : Type) (root : MosaicNode T) (sp dp : MosaicPath)
    (pos : MosaicDropTargetPosition)
    (h : getNodeAtPath root sp = none ∨ getNodeAtPath root dp = none ∨ sp = dp) :
    createDragToUpdates root sp dp pos = .ok [] ∧
    updateTree (some root) ([] : List (MosaicUpdate T)) = some root := by
  refine ⟨?_, rfl⟩
  rcases h with h | h | h
  · simp [createDragToUpdates, h]
  · cases hs : getNodeAtPath root sp <;> simp [createDragToUpdates, hs, h]
  · subst h
    cases hs : getNodeAtPath root sp <;> simp [createDragToUpdates, hs]

/-- C9 witness: a concrete self-drop returns the empty batch. -/
theorem createDragToUpdates_noop_witness :
    (getNodeAtPath (MosaicNode.split .row (.leaf "a") (.leaf "b") (some 50) : MosaicNode String)
        [MosaicBranch.first] = none ∨
     getNodeAtPath (MosaicNode.split .row (.leaf "a") (.leaf "b") (some 50) : MosaicNode String)
        [MosaicBranch.first] = none ∨
     [MosaicBranch.first] = [MosaicBranch.first]) ∧
    (createDragToUpdates (MosaicNode.split .row (.leaf "a") (.leaf "b") (some 50) : MosaicNode String)
        [MosaicBranch.first] [MosaicBranch.first] .left = .ok [] ∧
     updateTree (some (MosaicNode.split .row (.leaf "a") (.leaf "b") (some 50)))
        ([] : List (MosaicUpdate String)) =
       some (MosaicNode.split .row (.leaf "a") (.leaf "b") (some 50))) :=
  ⟨Or.inr (Or.inr rfl),
   createDragToUpdates_noop String (MosaicNode.split .row (.leaf "a") (.leaf "b") (some 50))
     [MosaicBranch.first] [MosaicBranch.first] .left (Or.inr (Or.inr rfl))⟩

/-- C6 counterexample: when the parent path resolves to a LEAF (rather than
not resolving at all), `createRemoveUpdate` signals the distinct
parent-is-not-a-parent error, not the path-not-found error the claim names. -/
theorem createRemoveUpdate_parent_leaf_cex :
    createRemoveUpdate (some (MosaicNode.split .row (.leaf "a") (.leaf "b") (some 50)))
        [MosaicBranch.first, .first] = .error .parentNotParent ∧
    MosaicErr.parentNotParent ≠ MosaicErr.pathNotFound :=
  ⟨rfl, by decide⟩

/-- C6 (amended): `createRemoveUpdate` rejects the empty path with the
root-removal error; for a non-empty path whose parent path resolves to a
split it returns `(parent path, $set sibling)`, and applying that update via
`updateTree` puts exactly the sibling subtree at the parent's position with
the resulting leaves being the original leaves minus those of the removed
subtree; it signals the path-not-found error when the parent path does not
resolve at all and the parent-not-a-parent error when the parent path
resolves to a leaf.  Concretely, removing `'a'` from `{row,'a','b'}` then
applying yields the leaf `'b'`. -/
theorem createRemoveUpdate_spec (T : Type) [DecidableEq T] :
    (∀ root : Option (MosaicNode T), createRemoveUpdate root [] = .error .rootRemoval) ∧
    (∀ (t : MosaicNode T) (P : MosaicPath) (b : MosaicBranch) (d : MosaicDirection)
        (c1 c2 : MosaicNode T) (pct : Option ℚ),
      getNodeAtPath t P = some (.split d c1 c2 pct) →
        createRemoveUpdate (some t) (P ++ [b]) =
          .ok ⟨P, .set (branchChild (getOtherBranch b) c1 c2)⟩ ∧
        ∃ result : MosaicNode T,
          updateTree (some t) [⟨P, .set (branchChild (getOtherBranch b) c1 c2)⟩] = some result ∧
          getNodeAtPath result P = some (branchChild (getOtherBranch b) c1 c2) ∧
          (getLeavesN result : Multiset T) =
            (getLeavesN t : Multiset T) - (getLeavesN (branchChild b c1 c2) : Multiset T)) ∧
    (∀ (t : MosaicNode T) (q : MosaicPath) (b : MosaicBranch),
      getNodeAtPath t q = none →
        createRemoveUpdate (some t) (q ++ [b]) = .error .pathNotFound) ∧
    (∀ (t : MosaicNode T) (q : MosaicPath) (b : MosaicBranch) (k : T),
      getNodeAtPath t q = some (.leaf k) →
        createRemoveUpdate (some t) (q ++ [b]) = .error .parentNotParent) := by
  refine ⟨?_, ?_, ?_, ?_⟩
  · intro root
    cases root <;> rfl
  · intro t P b d c1 c2 pct h
    constructor
    · simp only [createRemoveUpdate, List.getLast?_concat, List.dropLast_concat,
        getAndAssertNodeAtPathExists, h]
    · obtain ⟨pre, suf, hsp, hnew⟩ := setAtPath_spec P t (.split d c1 c2 pct) h
      refine ⟨applyOneUpdate t ⟨P, .set (branchChild (getOtherBranch b) c1 c2)⟩, rfl,
        (hnew _).2, ?_⟩
      rw [(hnew _).1, hsp]
      simp only [getLeavesN]
      cases b with
      | first =>
        simp only [getOtherBranch, branchChild]
        have hrw : ((pre ++ (getLeavesN c1 ++ getLeavesN c2) ++ suf : List T) : Multiset T) =
            (getLeavesN c1 : Multiset T) +
              ((pre ++ getLeavesN c2 ++ suf : List T) : Multiset T) := by
          simp only [← Multiset.coe_add]
          abel
        rw [hrw, add_tsub_cancel_left]
      | second =>
        simp only [getOtherBranch, branchChild]
        have hrw : ((pre ++ (getLeavesN c1 ++ getLeavesN c2) ++ suf : List T) : Multiset T) =
            (getLeavesN c2 : Multiset T) +
              ((pre ++ getLeavesN c1 ++ suf : List T) : Multiset T) := by
          simp only [← Multiset.coe_add]
          abel
        rw [hrw, add_tsub_cancel_left]
  · intro t q b h
    simp only [createRemoveUpdate, List.getLast?_concat, List.dropLast_concat,
      getAndAssertNodeAtPathExists, h]
  · intro t q b k h
    simp only [createRemoveUpdate, List.getLast?_concat, List.dropLast_concat,
      getAndAssertNodeAtPathExists, h]

/-- C6 witness: scenario A — `root = {row,'a','b',50}`,
`createRemoveUpdate(root, ['first'])` returns `([], $set 'b')` and applying
it via `updateTree` yields the leaf `'b'`. -/
theorem createRemoveUpdate_spec_witness :
    getNodeAtPath (MosaicNode.split .row (.leaf "a") (.leaf "b") (some 50) : MosaicNode String)
        [] = some (.split .row (.leaf "a") (.leaf "b") (some 50)) ∧
    (createRemoveUpdate (some (MosaicNode.split .row (.leaf "a") (.leaf "b") (some 50)))
        ([] ++ [MosaicBranch.first]) =
      .ok ⟨[], .set (branchChild (getOtherBranch .first) (.leaf "a") (.leaf "b"))⟩ ∧
     ∃ result : MosaicNode String,
       updateTree (some (MosaicNode.split .row (.leaf "a") (.leaf "b") (some 50)))
          [⟨[], .set (branchChild (getOtherBranch .first) (.leaf "a") (.leaf "b"))⟩] = some result ∧
       getNodeAtPath result [] =
         some (branchChild (getOtherBranch .first) (.leaf "a") (.leaf "b")) ∧
       (getLeavesN result : Multiset String) =
         (getLeavesN (MosaicNode.split .row (.leaf "a") (.leaf "b") (some 50)) : Multiset String) -
           (getLeavesN (branchChild MosaicBranch.first (.leaf "a") (.leaf "b")) : Multiset String)) :=
  ⟨rfl, (createRemoveUpdate_spec String).2.1
    (MosaicNode.split .row (.leaf "a") (.leaf "b") (some 50)) [] .first .row
    (.leaf "a") (.leaf "b") (some 50) rfl⟩

/-- C3 counterexample: with `sourcePath = ['first']` the source's parent path
`[]` is a strict prefix of `destinationPath = ['first','first']` and the
branches at index 0 agree, yet the second update is emitted at the original
(un-rebased) destination path `['first','first']`, not at the rebased path
`['first']` the claim requires — the `sourceParentPath.length > 0` guard
skips the empty parent path. -/
theorem createDragToUpdates_rebase_cex :
    createDragToUpdates
        (MosaicNode.split .row (.split .column (.leaf "b") (.leaf "c") (some 50))
          (.leaf "x") (some 50))
        [MosaicBranch.first] [MosaicBranch.first, .first] .left =
      .ok [⟨[], .set (.leaf "x")⟩,
           ⟨[MosaicBranch.first, .first],
            .set (dragSplitNode .left (.split .column (.leaf "b") (.leaf "c") (some 50))
              (.leaf "b"))⟩] ∧
    ([MosaicBranch.first, .first] : MosaicPath) ≠
      [] ++ ([MosaicBranch.first, .first] : MosaicPath).drop (0 + 1) :=
  ⟨rfl, by decide⟩

/-- C3 (amended): when the source's parent path `P` is NON-EMPTY and a strict
prefix of the destination path, and the destination's branch at index
`P.length` equals the source's own branch there, `createDragToUpdates`
returns exactly the two-update batch: remove the source at its original
path (`(P, $set sibling)`), then `$set` the new 50/50 joint split node at the
rebased destination path obtained by deleting that one branch segment. -/
theorem createDragToUpdates_rebase (T : Type) (root : MosaicNode T) (P tail : MosaicPath)
    (sb : MosaicBranch) (sn dn : MosaicNode T) (d : MosaicDirection) (c1 c2 : MosaicNode T)
    (pct : Option ℚ) (pos : MosaicDropTargetPosition)
    (hP : P ≠ []) (htail : tail ≠ [])
    (hparent : getNodeAtPath root P = some (.split d c1 c2 pct))
    (hsn : getNodeAtPath root (P ++ [sb]) = some sn)
    (hdn : getNodeAtPath root (P ++ sb :: tail) = some dn) :
    createDragToUpdates root (P ++ [sb]) (P ++ sb :: tail) pos =
      .ok [⟨P, .set (branchChild (getOtherBranch sb) c1 c2)⟩,
           ⟨P ++ tail, .set (dragSplitNode pos sn dn)⟩] := by
  have hne : (P ++ [sb] : MosaicPath) ≠ P ++ sb :: tail := by
    intro hEq
    have h2 := List.append_cancel_left hEq
    simp only [List.cons.injEq, true_and] at h2
    exact htail h2.symm
  have hlen : ¬((P ++ sb :: tail).length < (P ++ [sb]).length ∧
      (P ++ sb :: tail) <+: (P ++ [sb])) := by
    rintro ⟨hl, -⟩
    simp only [List.length_append, List.length_cons, List.length_nil] at hl
    omega
  have hspl : ((P ++ [sb]) : MosaicPath).dropLast = P := by simp
  have hsib : ¬(((P ++ [sb]) : MosaicPath).dropLast = (P ++ sb :: tail).dropLast) := by
    rw [hspl, List.dropLast_append_of_ne_nil P (by simp)]
    intro hEq
    have hlen2 := congrArg List.length hEq
    simp only [List.length_append] at hlen2
    have hnil : ((sb :: tail : MosaicPath)).dropLast = [] :=
      List.length_eq_zero.mp (by omega)
    cases tail with
    | nil => exact htail rfl
    | cons t0 ts => simp [List.dropLast] at hnil
  have hguard : 0 < ((P ++ [sb]) : MosaicPath).dropLast.length ∧
      ((P ++ [sb]) : MosaicPath).dropLast.length < (P ++ sb :: tail).length ∧
      ((P ++ [sb]) : MosaicPath).dropLast <+: (P ++ sb :: tail) ∧
      (P ++ [sb])[((P ++ [sb]) : MosaicPath).dropLast.length]? =
        (P ++ sb :: tail)[((P ++ [sb]) : MosaicPath).dropLast.length]? := by
    rw [hspl]
    refine ⟨?_, by simp, ⟨sb :: tail, rfl⟩, ?_⟩
    · cases P with
      | nil => exact absurd rfl hP
      | cons p ps => simp
    · rw [List.getElem?_append_right le_rfl, List.getElem?_append_right le_rfl]
      simp
  have hrem : createRemoveUpdate (some root) (P ++ [sb]) =
      .ok ⟨P, .set (branchChild (getOtherBranch sb) c1 c2)⟩ := by
    simp only [createRemoveUpdate, List.getLast?_concat, List.dropLast_concat,
      getAndAssertNodeAtPathExists, hparent]
  have hdrop : ((P ++ sb :: tail) : MosaicPath).drop (P.length + 1) = tail := by
    simp [List.drop_append]
  simp only [createDragToUpdates, hsn, hdn]
  rw [if_neg hne, if_neg hlen, if_neg hsib, if_pos hguard,
    if_pos (by simp : 0 < ((P ++ [sb]) : MosaicPath).length), hrem]
  rw [hspl, hdrop]

/-- C3 witness: dragging the subtree `{row,'b','c'}` (source
`['second','first']`, parent path `['second']`) onto `'b'` (destination
`['second','first','first']`) yields exactly the remove-then-rebased-set
batch. -/
theorem createDragToUpdates_rebase_witness :
    ([MosaicBranch.second] : MosaicPath) ≠ [] ∧ ([MosaicBranch.first] : MosaicPath) ≠ [] ∧
    getNodeAtPath rebaseSample [MosaicBranch.second] =
      some (.split .column (.split .row (.leaf "b") (.leaf "c") (some 50)) (.leaf "d") (some 50)) ∧
    getNodeAtPath rebaseSample ([MosaicBranch.second] ++ [MosaicBranch.first]) =
      some (.split .row (.leaf "b") (.leaf "c") (some 50)) ∧
    getNodeAtPath rebaseSample ([MosaicBranch.second] ++ MosaicBranch.first :: [MosaicBranch.first]) =
      some (.leaf "b") ∧
    createDragToUpdates rebaseSample ([MosaicBranch.second] ++ [MosaicBranch.first])
        ([MosaicBranch.second] ++ MosaicBranch.first :: [MosaicBranch.first]) .left =
      .ok [⟨[MosaicBranch.second],
            .set (branchChild (getOtherBranch .first)
              (.split .row (.leaf "b") (.leaf "c") (some 50)) (.leaf "d"))⟩,
           ⟨[MosaicBranch.second] ++ [MosaicBranch.first],
            .set (dragSplitNode .left (.split .row (.leaf "b") (.leaf "c") (some 50))
              (.leaf "b"))⟩] :=
  ⟨by simp, by simp, rfl, rfl, rfl,
   createDragToUpdates_rebase String rebaseSample [MosaicBranch.second] [MosaicBranch.first]
     .first (.split .row (.leaf "b") (.leaf "c") (some 50)) (.leaf "b") .column
     (.split .row (.leaf "b") (.leaf "c") (some 50)) (.leaf "d") (some 50) .left
     (by simp) (by simp) rfl rfl rfl⟩

/-- C8: `split` clamps the percentage to `[0,100]` and cuts the box at
`left + (right−left)·clamp(p)/100` for `row` (shared top/bottom) and at
`top + (bottom−top)·clamp(p)/100` for `column` (shared left/right); the two
closed regions together reconstruct the box exactly and their open interiors
are disjoint. -/
theorem split_reconstructs (B : BoundingBox) (p : ℚ)
    (hlr : B.left ≤ B.right) (htb : B.top ≤ B.bottom) :
    (split B p .row).1 =
      createBoundingBox B.top (B.left + getWidth B * clampPercent p / 100) B.bottom B.left ∧
    (split B p .row).2 =
      createBoundingBox B.top B.right B.bottom (B.left + getWidth B * clampPercent p / 100) ∧
    (split B p .column).1 =
      createBoundingBox B.top B.right (B.top + getHeight B * clampPercent p / 100) B.left ∧
    (split B p .column).2 =
      createBoundingBox (B.top + getHeight B * clampPercent p / 100) B.right B.bottom B.left ∧
    0 ≤ clampPercent p ∧ clampPercent p ≤ 100 ∧
    (∀ d, boxPoints (split B p d).1 ∪ boxPoints (split B p d).2 = boxPoints B) ∧
    (∀ d, boxInterior (split B p d).1 ∩ boxInterior (split B p d).2 = ∅) := by
  have hq0 : 0 ≤ clampPercent p := le_max_left 0 _
  have hq100 : clampPercent p ≤ 100 := max_le (by norm_num) (min_le_left 100 p)
  have hx1 : B.left ≤ B.left + getWidth B * clampPercent p / 100 := by
    have : 0 ≤ getWidth B * clampPercent p / 100 := by
      apply div_nonneg _ (by norm_num)
      exact mul_nonneg (by simp [getWidth]; linarith) hq0
    linarith
  have hx2 : B.left + getWidth B * clampPercent p / 100 ≤ B.right := by
    have hw : 0 ≤ getWidth B := by simp [getWidth]; linarith
    have hle : getWidth B * clampPercent p / 100 ≤ getWidth B := by
      rw [div_le_iff₀ (by norm_num : (0:ℚ) < 100)]
      nlinarith
    simp only [getWidth] at hle ⊢
    linarith
  have hy1 : B.top ≤ B.top + getHeight B * clampPercent p / 100 := by
    have : 0 ≤ getHeight B * clampPercent p / 100 := by
      apply div_nonneg _ (by norm_num)
      exact mul_nonneg (by simp [getHeight]; linarith) hq0
    linarith
  have hy2 : B.top + getHeight B * clampPercent p / 100 ≤ B.bottom := by
    have hh : 0 ≤ getHeight B := by simp [getHeight]; linarith
    have hle : getHeight B * clampPercent p / 100 ≤ getHeight B := by
      rw [div_le_iff₀ (by norm_num : (0:ℚ) < 100)]
      nlinarith
    simp only [getHeight] at hle ⊢
    linarith
  refine ⟨rfl, rfl, rfl, rfl, hq0, hq100, ?_, ?_⟩
  · intro d
    cases d with
    | row =>
      ext ⟨x, y⟩
      simp only [boxPoints, split, createBoundingBox, Set.mem_union, Set.mem_setOf_eq]
      constructor
      · rintro (⟨h1, h2, h3, h4⟩ | ⟨h1, h2, h3, h4⟩) <;> exact ⟨by linarith, by linarith, h3, h4⟩
      · rintro ⟨h1, h2, h3, h4⟩
        by_cases hx : x ≤ B.left + getWidth B * clampPercent p / 100
        · exact Or.inl ⟨h1, hx, h3, h4⟩
        · exact Or.inr ⟨by linarith, h2, h3, h4⟩
    | column =>
      ext ⟨x, y⟩
      simp only [boxPoints, split, createBoundingBox, Set.mem_union, Set.mem_setOf_eq]
      constructor
      · rintro (⟨h1, h2, h3, h4⟩ | ⟨h1, h2, h3, h4⟩) <;> exact ⟨h1, h2, by linarith, by linarith⟩
      · rintro ⟨h1, h2, h3, h4⟩
        by_cases hy : y ≤ B.top + getHeight B * clampPercent p / 100
        · exact Or.inl ⟨h1, h2, h3, hy⟩
        · exact Or.inr ⟨h1, h2, by linarith, h4⟩
  · intro d
    cases d with
    | row =>
      rw [Set.eq_empty_iff_forall_not_mem]
      rintro ⟨x, y⟩ ⟨⟨-, h2, -, -⟩, ⟨h5, -, -, -⟩⟩
      simp only [split, createBoundingBox] at h2 h5
      linarith
    | column =>
      rw [Set.eq_empty_iff_forall_not_mem]
      rintro ⟨x, y⟩ ⟨⟨-, -, -, h4⟩, ⟨-, -, h7, -⟩⟩
      simp only [split, createBoundingBox] at h4 h7
      linarith

/-- C8 witness: the unit-style box `(top,right,bottom,left) = (0,100,100,0)`
split at 30% horizontally reconstructs the box. -/
theorem split_reconstructs_witness :
    (createBoundingBox 0 100 100 0).left ≤ (createBoundingBox 0 100 100 0).right ∧
    (createBoundingBox 0 100 100 0).top ≤ (createBoundingBox 0 100 100 0).bottom ∧
    boxPoints (split (createBoundingBox 0 100 100 0) 30 .row).1 ∪
        boxPoints (split (createBoundingBox 0 100 100 0) 30 .row).2 =
      boxPoints (createBoundingBox 0 100 100 0) :=
  ⟨by norm_num [createBoundingBox], by norm_num [createBoundingBox],
   (split_reconstructs (createBoundingBox 0 100 100 0) 30 (by norm_num [createBoundingBox])
     (by norm_num [createBoundingBox])).2.2.2.2.2.2.1 .row⟩

/-- C1 (violated on the code): evaluating the drag batch of the repo's own
scenario-B test (`drag 'a' LEFT of 'b'` in
`{row,'a',{column,'b','c',50},40}`) — both paths resolve and differ, yet
applying the batch loses leaf `'a'`: the original leaves are
`['a','b','c']`, the resulting tree is `{column,'b','c',50}` with leaves
`['b','c']`, so the claimed leaf-preservation invariant fails. -/
theorem createDragToUpdates_scenarioB_loses_leaf :
    getNodeAtPath scenarioB [MosaicBranch.first] = some (.leaf "a") ∧
    getNodeAtPath scenarioB [MosaicBranch.second, .first] = some (.leaf "b") ∧
    createDragToUpdates scenarioB [MosaicBranch.first] [MosaicBranch.second, .first] .left =
      .ok scenarioBBatch ∧
    getLeaves (some scenarioB) = ["a", "b", "c"] ∧
    getLeaves (updateTree (some scenarioB) scenarioBBatch) = ["b", "c"] :=
  ⟨rfl, rfl, rfl, rfl, rfl⟩

/-- C2 (violated on the code): on scenario B the code returns
`{column,'b','c',50}` — the second update of the batch addresses
`['second','first']` inside the already-collapsed tree and silently no-ops —
whereas the claim (and the repo's own test) expect
`{column,{row,'a','b',50},'c',50}`. -/
theorem createDragToUpdates_scenarioB_result :
    createDragToUpdates scenarioB [MosaicBranch.first] [MosaicBranch.second, .first] .left =
      .ok scenarioBBatch ∧
    updateTree (some scenarioB) scenarioBBatch =
      some (.split .column (.leaf "b") (.leaf "c") (some 50)) ∧
    some (MosaicNode.split .column (.leaf "b") (.leaf "c") (some 50)) ≠
      some (MosaicNode.split .column (.split .row (.leaf "a") (.leaf "b") (some 50))
        (.leaf "c") (some 50)) :=
  ⟨rfl, rfl, by decide⟩
